import Mathlib

/-!
Verification development for the rexpro-ai chat client.

This file gives a shallow embedding, in Lean 4, of the request/response
orchestration core of the application (the two copies of `handleSendMessage`
in `App.tsx`, together with `handleStopGeneration`, the four tool-toggle
handlers, `findAndUpdateFile`, and the response post-processing code), and
proves or refutes the specified properties of that core.

Modelling conventions:
- JavaScript objects keyed by strings (`{ [key: string]: FileSystemNode }`)
  are modelled as association lists with unique keys in insertion order;
  property creation appends at the end, property update replaces in place,
  exactly as JavaScript object semantics prescribe.
- In-place mutation is modelled by explicit state passing: a function that
  mutates a tree returns the (possibly partially) mutated tree together with
  its boolean result.
- `JSON.parse` is an external runtime primitive, not repository code; it is
  passed in as an oracle of type `String → Except Unit JsonValue`.
- React `setState` calls are modelled as sequential state transformations in
  program order, each paired with an event in an observable trace.
- The abort token is modelled by the adapter outcome: the generation service
  (geminiService.ts) throws a DOMException named AbortError from its await
  points once the signal fires, after having delivered some prefix of the
  stream, so an aborted request is represented as
  `AdapterOutcome.aborted delivered`.
-/

/-! ## File system tree (types.ts `FileSystemNode`, App.tsx `findAndUpdateFile`) -/

/-- `FileSystemNode` from types/index.ts: `{ name, content?, children? }`.
A file node carries `content` and no `children`; a directory node carries
`children`. The `children` mapping is an association list in JS property
insertion order. -/
inductive FileSystemNode where
  | mk (name : String) (content : Option String)
      (children : Option (List (String × FileSystemNode)))

/-- The nested mapping type `{ [key: string]: FileSystemNode }`. -/
abbrev FSMap := List (String × FileSystemNode)

def FileSystemNode.name : FileSystemNode → String
  | .mk n _ _ => n

def FileSystemNode.content : FileSystemNode → Option String
  | .mk _ c _ => c

def FileSystemNode.children : FileSystemNode → Option FSMap
  | .mk _ _ ch => ch

/-- JS property read `obj[key]`: the value at the (unique) key, if present. -/
def objGet : FSMap → String → Option FileSystemNode
  | [], _ => none
  | e :: rest, k => if e.1 = k then some e.2 else objGet rest k

/-- JS property write `obj[key] = v`: replace the value at the first
occurrence of the key in place, otherwise append the new property at the
end (JS objects keep string keys in insertion order). -/
def objSet : FSMap → String → FileSystemNode → FSMap
  | [], k, v => [(k, v)]
  | e :: rest, k, v => if e.1 = k then (k, v) :: rest else e :: objSet rest k v

/-- The segment-walking loop body of `findAndUpdateFile` (App.tsx lines
61-88), with the in-place mutation made explicit: the returned map is the
mutated `nodes`, the boolean is the return value. At each segment: if the
key is absent, create a file node (last segment) or an empty directory node
(intermediate segment); then, at the last segment, fail if the node has a
`children` mapping, else overwrite its `content`; at an intermediate
segment, fail if the node has no `children` mapping, else descend. -/
def updateParts (content : String) : FSMap → List String → Bool × FSMap
  | nodes, [] => (true, nodes)
  | nodes, [part] =>
    match objGet nodes part with
    | none => (true, objSet nodes part (.mk part (some content) none))
    | some (.mk _ _ (some _)) => (false, nodes)
    | some (.mk nm _ none) => (true, objSet nodes part (.mk nm (some content) none))
  | nodes, part :: rest =>
    match objGet nodes part with
    | none =>
      let r := updateParts content [] rest
      (r.1, objSet nodes part (.mk part none (some r.2)))
    | some (.mk nm cont (some ch)) =>
      let r := updateParts content ch rest
      (r.1, objSet nodes part (.mk nm cont (some r.2)))
    | some (.mk _ _ none) => (false, nodes)

/-- JS `path.split('/')` over the character list: splitting at every slash,
an empty string splits to `[""]`, a trailing slash yields a trailing empty
segment. -/
def splitOnSlash : List Char → List (List Char)
  | [] => [[]]
  | ch :: rest =>
    let r := splitOnSlash rest
    if ch = '/' then [] :: r
    else
      match r with
      | [] => [[ch]]
      | s :: ss => (ch :: s) :: ss

/-- JS `path.split('/')`. -/
def splitPath (path : String) : List String :=
  (splitOnSlash path.data).map (fun l => String.mk l)

/-- `findAndUpdateFile(nodes, path, content)` from App.tsx: split the path at
`/` and walk the segments. -/
def findAndUpdateFile (nodes : FSMap) (path : String) (content : String) :
    Bool × FSMap :=
  updateParts content nodes (splitPath path)

/-- Static characterisation of the failing paths of `findAndUpdateFile` on
the input tree: some intermediate segment resolves to an existing node with
no `children` mapping, or the final segment resolves to an existing node
with a `children` mapping (a directory). -/
def pathFails : FSMap → List String → Bool
  | _, [] => false
  | nodes, [part] =>
    match objGet nodes part with
    | some (.mk _ _ (some _)) => true
    | _ => false
  | nodes, part :: rest =>
    match objGet nodes part with
    | none => false
    | some (.mk _ _ none) => true
    | some (.mk _ _ (some ch)) => pathFails ch rest

/-- Success shape of the walk, mirroring the frame property: the new tree
agrees with the old one away from the head segment; at the head segment, a
final segment holds a file node with the written content (keeping the name
and absent `children` of a previously existing file node), and an
intermediate segment holds a directory node whose children satisfy the same
property recursively, with previously absent intermediate segments created
as fresh directory nodes over the empty mapping. -/
inductive OnlyPath (c : String) : FSMap → FSMap → List String → Prop
  | single_new (old new : FSMap) (p : String)
      (hold : objGet old p = none)
      (hframe : ∀ q, q ≠ p → objGet new q = objGet old q)
      (hnew : objGet new p = some (.mk p (some c) none)) :
      OnlyPath c old new [p]
  | single_old (old new : FSMap) (p nm : String) (cont : Option String)
      (hold : objGet old p = some (.mk nm cont none))
      (hframe : ∀ q, q ≠ p → objGet new q = objGet old q)
      (hnew : objGet new p = some (.mk nm (some c) none)) :
      OnlyPath c old new [p]
  | cons_new (old new : FSMap) (p : String) (rest : List String) (sub : FSMap)
      (hold : objGet old p = none)
      (hframe : ∀ q, q ≠ p → objGet new q = objGet old q)
      (hnew : objGet new p = some (.mk p none (some sub)))
      (hsub : OnlyPath c [] sub rest) :
      OnlyPath c old new (p :: rest)
  | cons_old (old new : FSMap) (p nm : String) (cont : Option String)
      (rest : List String) (ch ch2 : FSMap)
      (hold : objGet old p = some (.mk nm cont (some ch)))
      (hframe : ∀ q, q ≠ p → objGet new q = objGet old q)
      (hnew : objGet new p = some (.mk nm cont (some ch2)))
      (hsub : OnlyPath c ch ch2 rest) :
      OnlyPath c old new (p :: rest)

/-! ## JS string primitives used by the orchestration code -/

/-- JS `String.prototype.trim` over the character list (whitespace stripped
from both ends; the JS whitespace class is modelled by `Char.isWhitespace`,
which covers the characters occurring in this code base). -/
def trimChars (l : List Char) : List Char :=
  ((l.dropWhile Char.isWhitespace).reverse.dropWhile Char.isWhitespace).reverse

/-- JS `s.trim()`. -/
def jsTrim (s : String) : String :=
  String.mk (trimChars s.data)

/-- Index of the first occurrence of `pat` as a contiguous sublist of `l`. -/
def firstOccur (pat : List Char) : List Char → Option Nat
  | [] => if pat.isPrefixOf ([] : List Char) then some 0 else none
  | c :: t =>
    if pat.isPrefixOf (c :: t) then some 0
    else (firstOccur pat t).map (fun n => n + 1)

/-! ## Grounding citation deduplication (App.tsx lines 782-786) -/

/-- The value of `item.web?.uri` as a JS value: `undefined` when `web` is
absent or `uri` is absent, `null` or a string otherwise. -/
inductive UriVal where
  | undef
  | null
  | str (s : String)
deriving DecidableEq

structure GroundingWeb where
  uri : UriVal
  title : String
deriving DecidableEq

/-- A grounding citation as consumed by the dedup code: only the `web`
property is inspected. -/
structure GroundingChunk where
  web : Option GroundingWeb
deriving DecidableEq

/-- The JS Map key `item.web?.uri`. -/
def chunkKey (c : GroundingChunk) : UriVal :=
  match c.web with
  | none => .undef
  | some w => w.uri

/-- JS `Map.prototype.set`: replace the value at an existing key in place
(keeping the key in its original insertion position), else append. -/
def mapSet (m : List (UriVal × GroundingChunk)) (k : UriVal) (v : GroundingChunk) :
    List (UriVal × GroundingChunk) :=
  if m.any (fun e => e.1 = k) then m.map (fun e => if e.1 = k then (k, v) else e)
  else m ++ [(k, v)]

/-- `new Map(groundingChunks.map(item => [item.web?.uri, item]))`. -/
def buildChunkMap (l : List GroundingChunk) : List (UriVal × GroundingChunk) :=
  l.foldl (fun m c => mapSet m (chunkKey c) c) []

/-- The filter `item && item.web && item.web.uri`: the citation objects
delivered by the stream are non-null objects, so the first conjunct is
always true and truthiness of `web.uri` means a non-empty string. -/
def usableChunk (c : GroundingChunk) : Bool :=
  match c.web with
  | some w => match w.uri with | .str s => s ≠ "" | _ => false
  | none => false

/-- `Array.from(new Map(...).values()).filter(...)` from the finalizer. -/
def uniqueChunks (l : List GroundingChunk) : List GroundingChunk :=
  ((buildChunkMap l).map (fun e => e.2)).filter usableChunk

/-- First-seen order of the Map keys of `l`. -/
def firstSeenKeys : List GroundingChunk → List UriVal
  | [] => []
  | c :: cs => chunkKey c :: (firstSeenKeys cs).filter (fun k => k ≠ chunkKey c)

/-- The last element of `l` carrying the given key. -/
def lastWithKey (l : List GroundingChunk) (k : UriVal) : Option GroundingChunk :=
  (l.filter (fun c => chunkKey c = k)).getLast?

/-- Deduplication described at the specification level, for comparison with
`uniqueChunks`: one entry per source URL in first-seen order, each entry
being the last accumulated citation with that URL, entries without a usable
URL dropped. -/
def uniqueChunksSpec (l : List GroundingChunk) : List GroundingChunk :=
  ((firstSeenKeys l).filterMap (lastWithKey l)).filter usableChunk

/-! ## Thinking-block extraction (App.tsx lines 771-779) -/

def thinkOpenTag : List Char := "<thinking>".data

def thinkCloseTag : List Char := "</thinking>".data

/-- The first match of the regex over the text, as JS computes it: the match
starts at the first occurrence of the opening tag, the lazy group ends at
the first closing tag after it. Returns (inner text, text with the matched
span removed), or `none` when the regex does not match. -/
def extractThinking (text : String) : Option (String × String) :=
  match firstOccur thinkOpenTag text.data with
  | none => none
  | some i =>
    let afterOpen := text.data.drop (i + thinkOpenTag.length)
    match firstOccur thinkCloseTag afterOpen with
    | none => none
    | some j =>
      some (String.mk (afterOpen.take j),
            String.mk (text.data.take i ++ afterOpen.drop (j + thinkCloseTag.length)))

/-! ## JSON values

`JSON.parse` is a runtime primitive, not repository code; the orchestration
functions therefore take the parser as an oracle `String → Except Unit
JsonValue` and this type models the parsed values (numbers as integers; no
claim exercises non-integral numbers). -/

inductive JsonValue where
  | null
  | bool (b : Bool)
  | num (n : Int)
  | str (s : String)
  | arr (elems : List JsonValue)
  | obj (fields : List (String × JsonValue))

/-- JS property read `parsed.field`: `undefined` (here `none`) when absent
or when the value is not an object. -/
def getField (j : JsonValue) (k : String) : Option JsonValue :=
  match j with
  | .obj fields => (fields.find? (fun f => f.1 = k)).map (fun f => f.2)
  | _ => none

/-- JS truthiness of a JSON value. -/
def truthy : JsonValue → Bool
  | .null => false
  | .bool b => b
  | .num n => n ≠ 0
  | .str s => s ≠ ""
  | .arr _ => true
  | .obj _ => true

/-- JS truthiness of a possibly-`undefined` JSON value. -/
def truthyOpt : Option JsonValue → Bool
  | none => false
  | some j => truthy j

/-- Rough JS string coercion for parsed values that flow into string
positions (`projectName`, `explanation`, file contents). The claims only
exercise string-valued fields, for which this is the identity. -/
def jsToDisplay : JsonValue → String
  | .str s => s
  | .num n => toString n
  | .bool b => if b then "true" else "false"
  | .null => "null"
  | .arr _ => ""
  | .obj _ => "[object Object]"

def openBraceChar : Char := Char.ofNat 123

def closeBraceChar : Char := Char.ofNat 125

def fenceOpenTag : List Char := "```json".data

def fenceCloseTag : List Char := "```".data

/-- The JSON-isolation step of the PROJECT finalizer (App.tsx lines
730-737): trim, then prefer the first fenced block with a non-empty capture
(the regex lazy group ends at the first closing fence, the surrounding
whitespace groups strip the capture); otherwise take the substring from the
first opening brace to the last closing brace when the latter comes later.
-/
def cleanJson (s : String) : String :=
  let t := trimChars s.data
  let fallback : List Char :=
    match firstOccur [openBraceChar] t, firstOccur [closeBraceChar] t.reverse with
    | some fb, some rv =>
      let lb := t.length - 1 - rv
      if fb < lb then (t.take (lb + 1)).drop fb else t
    | _, _ => t
  match firstOccur fenceOpenTag t with
  | some i =>
    let after := t.drop (i + fenceOpenTag.length)
    match firstOccur fenceCloseTag after with
    | some j =>
      let inner := trimChars (after.take j)
      if inner = [] then String.mk fallback else String.mk inner
    | none => String.mk fallback
  | none => String.mk fallback

/-! ## Data model (types/index.ts) -/

inductive Role where
  | user
  | model
deriving DecidableEq

structure Attachment where
  name : String
  mimeType : String
  dataUrl : String
deriving DecidableEq

structure Project where
  id : String
  name : String
  description : String
  files : FSMap

structure ChatMessage where
  id : String
  role : Role
  content : String
  attachments : Option (List Attachment) := none
  reasoning : Option String := none
  isThinking : Option Bool := none
  projectFilesUpdate : Option Bool := none
  project : Option Project := none
  groundingChunks : Option (List GroundingChunk) := none

structure ChatSession where
  id : String
  title : String
  messages : List ChatMessage
  project : Option Project := none

/-- The orchestration-relevant top-level React state of App.tsx. -/
structure AppState where
  chatHistory : List ChatSession
  activeChatId : Option String
  isLoading : Bool

/-- `initialFiles` from types/index.ts. -/
def initialFiles : FSMap :=
  [("index.html", .mk "index.html" (some ("<!DOCTYPE html>\n<html lang=\"en\">\n<head>\n  <meta charset=\"UTF-8\">\n  <meta name=\"viewport\" content=\"width=device-width, initial-scale=1.0\">\n  <title>AI Project Preview</title>\n  <script src=\"https://cdn.tailwindcss.com\"></script>\n</head>\n<body class=\"bg-gray-100\">\n  <div class=\"p-8 flex flex-col items-center justify-center min-h-screen\">\n    <h1 class=\"text-3xl font-bold text-gray-800\">Hello, World!</h1>\n    <p class=\"mt-2 text-gray-600\">Your AI-generated project will be displayed here.</p>\n  </div>\n</body>\n</html>")) none)]

/-- `createNewProject` from App.tsx, with the default description and the
`Date.now()` stamp passed in. -/
def createNewProject (name : String) (now : Nat) : Project :=
  { id := "proj_" ++ toString now, name := name,
    description := "A new coding project.", files := initialFiles }

/-! ## Tool toggles (App.tsx `handleToggle...`, lines 886-932) -/

structure ToggleState where
  codeInterpreter : Bool
  deepResearch : Bool
  imageTool : Bool
  videoTool : Bool
deriving DecidableEq

inductive ToggleOp where
  | codeInterpreter
  | deepResearch
  | imageTool
  | videoTool
deriving DecidableEq

/-- The four toggle handlers: flip the addressed flag; when it turns on,
force the other three off. -/
def handleToggle (s : ToggleState) : ToggleOp → ToggleState
  | .codeInterpreter =>
    let n := !s.codeInterpreter
    if n then ⟨n, false, false, false⟩ else { s with codeInterpreter := n }
  | .deepResearch =>
    let n := !s.deepResearch
    if n then ⟨false, n, false, false⟩ else { s with deepResearch := n }
  | .imageTool =>
    let n := !s.imageTool
    if n then ⟨false, false, n, false⟩ else { s with imageTool := n }
  | .videoTool =>
    let n := !s.videoTool
    if n then ⟨false, false, false, n⟩ else { s with videoTool := n }

/-- Run a sequence of toggle clicks from the all-off initial state. -/
def runToggles (ops : List ToggleOp) : ToggleState :=
  ops.foldl handleToggle ⟨false, false, false, false⟩

/-- Number of active toggles. -/
def activeToggleCount (s : ToggleState) : Nat :=
  (if s.codeInterpreter then 1 else 0) + (if s.deepResearch then 1 else 0) +
    (if s.imageTool then 1 else 0) + (if s.videoTool then 1 else 0)

/-! ## Adapter interface (services/geminiService.ts boundary)

`generateChatResponse` streams chunks through a callback and throws an
AbortError from its await points once the abort signal fires, having
delivered some prefix of the stream; `generateImage` / `generateVideo`
return one response or throw. An adapter interaction is therefore a
completed chunk list, or an error / abort after a delivered prefix. -/

structure InlineRespData where
  mimeType : String
  data : String
deriving DecidableEq

/-- One element of `candidates[0].content.parts`; the code inspects only
`text` (truthiness) and `inlineData`. -/
structure RespPart where
  text : Option String := none
  inlineData : Option InlineRespData := none
deriving DecidableEq

/-- One `GenerateContentResponse` chunk as consumed by the callback:
aggregated `text`, optional `candidates[0].content.parts`, optional
`candidates[0].groundingMetadata.groundingChunks`. -/
structure Chunk where
  text : String
  parts : Option (List RespPart) := none
  groundingChunks : Option (List GroundingChunk) := none
deriving DecidableEq

inductive AdapterOutcome where
  | success (chunks : List Chunk)
  | failure (delivered : List Chunk)
  | aborted (delivered : List Chunk)

/-- The ambient toggle/model-capability state read by `handleSendMessage`,
plus the `Date.now()` stamp used for generated ids. -/
structure SendCfg where
  isCodeInterpreterToggled : Bool
  isDeepResearchToggled : Bool
  isImageToolActive : Bool
  isVideoToolActive : Bool
  isTextToImageModel : Bool
  isImageEditModel : Bool
  isVideoModel : Bool
  isThinkingModel : Bool
  isProModel : Bool
  useThinking : Bool
  now : Nat

/-- Per-request context captured at the top of `handleSendMessage`. -/
structure SendCtx where
  cfg : SendCfg
  isInterpreterRequest : Bool
  isImageRequest : Bool
  isVideoRequest : Bool
  currentChatId : String

inductive NetKind where
  | image
  | video
  | chatStream
deriving DecidableEq

/-- Observable actions of one send, in program order: loading-flag writes,
session-store writes, the adapter call, per-chunk observations and
incremental echoes, the error write, the final post-processing commit. A
`crash` marks the path where the non-null assertion on the active chat
fails and the TypeError propagates out of the handler. -/
inductive Ev where
  | setLoading (b : Bool)
  | sessionCreated (id : String)
  | turnAppended (id : String)
  | projectCreated (id : String)
  | netCall (k : NetKind)
  | chunk (i : Nat)
  | echo (i : Nat)
  | errorWrite
  | finalize
  | crash
deriving DecidableEq

inductive TryEnd where
  | completed
  | errored
  | abortedE
deriving DecidableEq

/-- The mutable accumulators of `handleSendMessage`: `fullResponseText`,
`groundingChunks`, `finalParts`, `fullResponse`. -/
structure Accum where
  fullResponseText : String
  groundingChunks : List GroundingChunk
  finalParts : List RespPart
  fullResponse : Option Chunk

def emptyAccum : Accum := ⟨"", [], [], none⟩

/-- `setChatHistory(prev => prev.map(chat => chat.id === cid ? f(chat) :
chat))`, the single session-store update pattern used throughout. -/
def updateChat (hist : List ChatSession) (cid : String)
    (f : ChatSession → ChatSession) : List ChatSession :=
  hist.map (fun c => if c.id = cid then f c else c)

/-- Replace the trailing message of a session when it exists and has the
MODEL role, as every streaming/error/final updater does. -/
def setLastMessage (f : ChatMessage → ChatMessage) (s : ChatSession) : ChatSession :=
  match s.messages.getLast? with
  | some m =>
    if m.role = .model then { s with messages := s.messages.dropLast ++ [f m] }
    else s
  | none => s

/-- `handleStopGeneration` (App.tsx lines 482-505): fire the abort token
(modelled by the adapter outcome), clear the loading flag, and replace the
trailing MODEL message of the active chat with the stopped notice when a
request is in flight. -/
def handleStopGeneration (st : AppState) : AppState :=
  { chatHistory := st.chatHistory.map (fun chat =>
      if st.activeChatId = some chat.id then
        if st.isLoading then
          setLastMessage
            (fun m => { m with content := "You stopped this response.",
                               isThinking := some false }) chat
        else chat
      else chat),
    activeChatId := st.activeChatId,
    isLoading := false }

/-! ## Response post-processing (the `finalUpdater` of App.tsx, lines
697-792) -/

/-- The IMAGE/VIDEO branch: concatenate truthy text parts, turn inline-data
parts into generated attachments; with no parts fall back to the
accumulated text; with empty content fall back to the fixed video line. -/
def mediaFinalFields (now : Nat) (isVideoRequest : Bool)
    (finalParts : List RespPart) (text : String) (msg : ChatMessage) :
    ChatMessage :=
  let step := finalParts.foldl
    (fun (acc : String × List Attachment) part =>
      match part.text with
      | some s =>
        if s ≠ "" then (acc.1 ++ s, acc.2)
        else
          match part.inlineData with
          | some d =>
            let isVideo := "video/".data.isPrefixOf d.mimeType.data
            (acc.1, acc.2 ++
              [⟨"generated-" ++ (if isVideo then "video" else "image") ++ "-"
                  ++ toString now,
                d.mimeType, "data:" ++ d.mimeType ++ ";base64," ++ d.data⟩])
          | none => acc
      | none =>
        match part.inlineData with
        | some d =>
          let isVideo := "video/".data.isPrefixOf d.mimeType.data
          (acc.1, acc.2 ++
            [⟨"generated-" ++ (if isVideo then "video" else "image") ++ "-"
                ++ toString now,
              d.mimeType, "data:" ++ d.mimeType ++ ";base64," ++ d.data⟩])
        | none => acc)
    ("", [])
  let finalContent :=
    if finalParts.length > 0 then step.1
    else if text ≠ "" then text else ""
  { msg with
    content := if finalContent ≠ "" then finalContent
               else if isVideoRequest then "Here is your generated video." else "",
    attachments := some step.2 }

/-- Fallback content when the parsed project payload misses a required
field. -/
def notFormatFallback (text : String) : String :=
  "The AI response was not in the expected format. Here is the raw response:\n\n"
    ++ text

/-- Fallback content when `JSON.parse` (or the file loop) throws. -/
def parseFailFallback (text : String) : String :=
  "Failed to parse the AI\x27s code response. Here is the raw response:\n\n"
    ++ text

/-- One element of the parsed `files` array. A non-string `path` makes
`path.split` throw inside the try block (landing in the catch fallback); a
missing or non-string `content` flows through JS as-is and is modelled by
its display form. -/
def decodeFileEntry (j : JsonValue) : Option (String × String) :=
  match getField j "path" with
  | some (.str p) =>
    some (p, match getField j "content" with
             | some v => jsToDisplay v
             | none => "undefined")
  | _ => none

/-- The parsed `files` value as a list of path/content pairs; `none` when
the value is not an array or some entry would make the loop throw. -/
def decodeFiles : JsonValue → Option (List (String × String))
  | .arr items => items.mapM decodeFileEntry
  | _ => none

/-- `parsedResponse.files.forEach(file => ...)`: thread the tree through the
per-file upserts, remembering the last successfully updated path. -/
def applyFileUpdates : FSMap → String → List (String × String) → FSMap × String
  | files, lastFile, [] => (files, lastFile)
  | files, lastFile, (p, c) :: rest =>
    let r := findAndUpdateFile files p c
    applyFileUpdates r.2 (if r.1 then p else lastFile) rest

/-- The PROJECT branch of the finalizer (App.tsx lines 728-770): isolate and
parse the JSON payload, require the three fields, merge the files into a
copy of the session project, set the explanation as content; degrade to the
raw-text fallbacks otherwise. The panel-opening side effects and the
deferred `pendingProjectUpdate` are not part of the session state. -/
def interpreterFinalFields (parse : String → Except Unit JsonValue)
    (text : String) (proj : Project) (msg : ChatMessage) : ChatMessage :=
  match parse (cleanJson text) with
  | .error _ => { msg with content := parseFailFallback text }
  | .ok j =>
    if truthyOpt (getField j "files") && truthyOpt (getField j "explanation")
        && truthyOpt (getField j "projectName") then
      match (getField j "files").bind decodeFiles with
      | none => { msg with content := parseFailFallback text }
      | some entries =>
        let merged := applyFileUpdates proj.files "index.html" entries
        let projectForUpdate : Project :=
          { proj with
            name := match getField j "projectName" with
                    | some v => jsToDisplay v
                    | none => "",
            files := merged.1 }
        { msg with
          content := match getField j "explanation" with
                     | some v => jsToDisplay v
                     | none => "",
          project := some projectForUpdate }
    else { msg with content := notFormatFallback text }

/-- The plain-CHAT branch of the finalizer (App.tsx lines 771-779). -/
def chatFinalFields (text : String) (msg : ChatMessage) : ChatMessage :=
  match extractThinking text with
  | some r => { msg with reasoning := some (jsTrim r.1), content := jsTrim r.2 }
  | none => { msg with content := text }

/-- `if (groundingChunks.length > 0) updatedMsg.groundingChunks =
uniqueChunks` (App.tsx lines 782-786). -/
def attachGroundingChunks (acc : List GroundingChunk) (msg : ChatMessage) :
    ChatMessage :=
  if acc.length > 0 then { msg with groundingChunks := some (uniqueChunks acc) }
  else msg

/-- The whole `finalUpdater` applied to one session. -/
def finalUpdater (parse : String → Except Unit JsonValue) (ctx : SendCtx)
    (text : String) (finalParts : List RespPart)
    (grounding : List GroundingChunk) (prev : ChatSession) : ChatSession :=
  match prev.messages.getLast? with
  | some lastMsg =>
    if lastMsg.role = .model then
      let updatedMsg :=
        if ctx.isImageRequest || ctx.isVideoRequest then
          mediaFinalFields ctx.cfg.now ctx.isVideoRequest finalParts text lastMsg
        else
          match ctx.isInterpreterRequest, prev.project with
          | true, some proj => interpreterFinalFields parse text proj lastMsg
          | _, _ => chatFinalFields text lastMsg
      let finalMsg :=
        { attachGroundingChunks grounding updatedMsg with isThinking := some false }
      { prev with messages := prev.messages.dropLast ++ [finalMsg] }
    else prev
  | none => prev

/-! ## The request orchestrator: first copy of `handleSendMessage`
(App.tsx lines 507-795) -/

inductive Phase1Out where
  | rejected
  | crashed (st : AppState) (evs : List Ev)
  | proceed (ctx : SendCtx) (st : AppState) (evs : List Ev)

/-- The video placeholder written into the pending MODEL message. -/
def videoPlaceholderText : String :=
  "🎬 **Generating your video...**\n\nThis process can take several minutes. Please wait while the model creates your content."

/-- The synchronous prefix of the first `handleSendMessage`, up to the
adapter call: input/loading validation, the text-to-image attachment check,
setting the loading flag, appending the user message and the pending MODEL
placeholder (creating a session when none is active), and the interpreter
project-creation step. The session lookup feeding that step reads the
render-time `chatHistory` snapshot, exactly as the closure does. -/
def handleSendMessagePhase1 (cfg : SendCfg) (st : AppState) (prompt : String)
    (attachments : List Attachment) : Phase1Out :=
  if (jsTrim prompt = "" ∧ attachments = []) ∨ st.isLoading = true then .rejected
  else
    let isInterpreterRequest := cfg.isCodeInterpreterToggled
    let isImageRequest := cfg.isImageToolActive
    let isVideoRequest := cfg.isVideoToolActive
    if isImageRequest = true ∧ cfg.isTextToImageModel = true ∧ attachments ≠ []
    then .rejected
    else
      let uiUserMessage : ChatMessage :=
        { id := "msg-user-" ++ toString cfg.now, role := .user,
          content := prompt, attachments := some attachments }
      let placeholder : ChatMessage :=
        { id := "msg-model-" ++ toString cfg.now, role := .model,
          content := if isVideoRequest then videoPlaceholderText else "",
          reasoning := some "",
          isThinking := some ((cfg.isThinkingModel
              && (cfg.isProModel || cfg.useThinking))
            || isImageRequest || isVideoRequest),
          projectFilesUpdate := some isInterpreterRequest }
      match st.activeChatId with
      | none =>
        let currentChatId := toString cfg.now
        let newTitle := String.mk (prompt.data.take 40)
          ++ (if prompt.data.length > 40 then "..." else "")
        let currentChat : ChatSession :=
          { id := currentChatId, title := newTitle,
            messages := [uiUserMessage, placeholder] }
        let st1 : AppState :=
          { chatHistory := currentChat :: st.chatHistory,
            activeChatId := some currentChatId, isLoading := true }
        let ctx : SendCtx :=
          { cfg := cfg, isInterpreterRequest := isInterpreterRequest,
            isImageRequest := isImageRequest, isVideoRequest := isVideoRequest,
            currentChatId := currentChatId }
        if isInterpreterRequest then
          match ((st.chatHistory.find? (fun c => c.id = currentChatId)).bind
              (fun c => c.project)) with
          | some _ =>
            .proceed ctx st1 [.setLoading true, .sessionCreated currentChatId]
          | none =>
            let newProject := createNewProject
              ("Project for: " ++ String.mk (prompt.data.take 30) ++ "...") cfg.now
            let updatedChat := { currentChat with project := some newProject }
            .proceed ctx
              { st1 with chatHistory :=
                  updateChat st1.chatHistory currentChatId (fun _ => updatedChat) }
              [.setLoading true, .sessionCreated currentChatId,
               .projectCreated currentChatId]
        else .proceed ctx st1 [.setLoading true, .sessionCreated currentChatId]
      | some currentChatId =>
        let hist1 := updateChat st.chatHistory currentChatId
          (fun c => { c with messages := c.messages ++ [uiUserMessage, placeholder] })
        let st1 : AppState := { st with chatHistory := hist1, isLoading := true }
        let ctx : SendCtx :=
          { cfg := cfg, isInterpreterRequest := isInterpreterRequest,
            isImageRequest := isImageRequest, isVideoRequest := isVideoRequest,
            currentChatId := currentChatId }
        match st.chatHistory.find? (fun c => c.id = currentChatId) with
        | none => .crashed { st with chatHistory := hist1, isLoading := true }
            [.setLoading true, .crash]
        | some currentChat =>
          if isInterpreterRequest then
            match currentChat.project with
            | some _ =>
              .proceed ctx st1 [.setLoading true, .turnAppended currentChatId]
            | none =>
              let newProject := createNewProject
                ("Project for: " ++ String.mk (prompt.data.take 30) ++ "...")
                cfg.now
              let updatedChat := { currentChat with project := some newProject }
              .proceed ctx
                { st1 with chatHistory :=
                    updateChat st1.chatHistory currentChatId (fun _ => updatedChat) }
                [.setLoading true, .turnAppended currentChatId,
                 .projectCreated currentChatId]
          else .proceed ctx st1 [.setLoading true, .turnAppended currentChatId]

/-- Streaming echo condition: plain chat only (App.tsx line 662). -/
def echoCond (ctx : SendCtx) : Bool :=
  !ctx.isInterpreterRequest && !ctx.cfg.isImageEditModel
    && !ctx.cfg.isTextToImageModel && !ctx.cfg.isVideoModel

/-- The per-chunk accumulator update of the streaming callback (App.tsx
lines 649-660). -/
def processChunkAccum (acc : Accum) (ch : Chunk) : Accum :=
  { fullResponse := some ch,
    finalParts := match ch.parts with | some ps => ps | none => acc.finalParts,
    fullResponseText := acc.fullResponseText ++ ch.text,
    groundingChunks := acc.groundingChunks
      ++ (match ch.groundingChunks with | some gs => gs | none => []) }

/-- The streaming callback applied to each delivered chunk in order,
echoing the accumulated text into the trailing MODEL message in plain chat
mode. -/
def consumeChunks (ctx : SendCtx) :
    Nat → Accum → AppState → List Chunk → Accum × AppState × List Ev
  | _, acc, st, [] => (acc, st, [])
  | i, acc, st, ch :: rest =>
    let acc1 := processChunkAccum acc ch
    let step : AppState × List Ev :=
      if echoCond ctx then
        let hist := updateChat st.chatHistory ctx.currentChatId
          (setLastMessage (fun m => { m with content := acc1.fullResponseText }))
        ({ st with chatHistory := hist }, [.chunk i, .echo i])
      else (st, [.chunk i])
    let r := consumeChunks ctx (i + 1) acc1 step.1 rest
    (r.1, r.2.1, step.2 ++ r.2.2)

structure TryResult where
  acc : Accum
  st : AppState
  evs : List Ev
  tend : TryEnd

/-- The try block (App.tsx lines 611-672): dispatch on the mode; the image
and video endpoints are single awaited calls whose response lands in
`fullResponse`; the chat endpoint streams through the callback. The
outcome parameter gives the adapter behaviour of this interaction. -/
def sendTry (ctx : SendCtx) (st : AppState) (outcome : AdapterOutcome) :
    TryResult :=
  if ctx.isImageRequest && ctx.cfg.isTextToImageModel then
    match outcome with
    | .success cs =>
      ⟨{ emptyAccum with fullResponse := cs.getLast? }, st, [.netCall .image],
        .completed⟩
    | .failure _ => ⟨emptyAccum, st, [.netCall .image], .errored⟩
    | .aborted _ => ⟨emptyAccum, st, [.netCall .image], .abortedE⟩
  else if ctx.isVideoRequest then
    match outcome with
    | .success cs =>
      ⟨{ emptyAccum with fullResponse := cs.getLast? }, st, [.netCall .video],
        .completed⟩
    | .failure _ => ⟨emptyAccum, st, [.netCall .video], .errored⟩
    | .aborted _ => ⟨emptyAccum, st, [.netCall .video], .abortedE⟩
  else
    match outcome with
    | .success cs =>
      let r := consumeChunks ctx 0 emptyAccum st cs
      ⟨r.1, r.2.1, .netCall .chatStream :: r.2.2, .completed⟩
    | .failure cs =>
      let r := consumeChunks ctx 0 emptyAccum st cs
      ⟨r.1, r.2.1, .netCall .chatStream :: r.2.2, .errored⟩
    | .aborted cs =>
      let r := consumeChunks ctx 0 emptyAccum st cs
      ⟨r.1, r.2.1, .netCall .chatStream :: r.2.2, .abortedE⟩

/-- The catch block (App.tsx lines 673-685): an AbortError returns
silently; any other error writes the fixed apologetic message into the
trailing MODEL message. -/
def sendCatch (ctx : SendCtx) (st : AppState) (tend : TryEnd) :
    AppState × List Ev :=
  match tend with
  | .errored =>
    let hist := updateChat st.chatHistory ctx.currentChatId
      (setLastMessage (fun m =>
        { m with content := "Sorry, I encountered an error. Please try again.",
                 isThinking := some false }))
    ({ st with chatHistory := hist }, [.errorWrite])
  | _ => (st, [])

/-- The finally block (App.tsx lines 686-794): clear the loading flag
first; return when the signal aborted; otherwise refresh the accumulators
from the last response (the first copy overwrites `fullResponseText` with
`fullResponse.text || fullResponseText` unconditionally, the second copy
only for image/video requests) and commit the final updater. -/
def sendFinallyStep (parse : String → Except Unit JsonValue) (ctx : SendCtx)
    (replaceTextUncond : Bool) (st : AppState) (acc : Accum) (tend : TryEnd) :
    AppState × List Ev :=
  let st1 := { st with isLoading := false }
  if tend = .abortedE then (st1, [.setLoading false])
  else
    let acc1 :=
      match acc.fullResponse with
      | none => acc
      | some r =>
        { acc with
          finalParts := match r.parts with | some ps => ps | none => acc.finalParts,
          fullResponseText :=
            if replaceTextUncond || ctx.isImageRequest || ctx.isVideoRequest then
              (if r.text ≠ "" then r.text else acc.fullResponseText)
            else acc.fullResponseText }
    let hist := updateChat st1.chatHistory ctx.currentChatId
      (finalUpdater parse ctx acc1.fullResponseText acc1.finalParts
        acc1.groundingChunks)
    ({ st1 with chatHistory := hist }, [.setLoading false, .finalize])

/-- The first copy of `handleSendMessage` as a whole, for a given adapter
outcome, without any interleaved stop action. -/
def handleSendMessage (parse : String → Except Unit JsonValue) (cfg : SendCfg)
    (st : AppState) (prompt : String) (attachments : List Attachment)
    (outcome : AdapterOutcome) : AppState × List Ev :=
  match handleSendMessagePhase1 cfg st prompt attachments with
  | .rejected => (st, [])
  | .crashed st1 evs => (st1, evs)
  | .proceed ctx st1 evs1 =>
    let t := sendTry ctx st1 outcome
    let c := sendCatch ctx t.st t.tend
    let f := sendFinallyStep parse ctx true c.1 t.acc t.tend
    (f.1, evs1 ++ t.evs ++ c.2 ++ f.2)

/-- The cancellation interleaving: the user stop action runs between the
last delivered chunk and the AbortError surfacing in the catch block; the
finally block then runs on the stopped state. `none` when the send was
rejected or crashed before reaching the adapter. -/
def abortedRun (parse : String → Except Unit JsonValue) (cfg : SendCfg)
    (st : AppState) (prompt : String) (attachments : List Attachment)
    (delivered : List Chunk) : Option (AppState × List Ev) :=
  match handleSendMessagePhase1 cfg st prompt attachments with
  | .proceed ctx st1 evs1 =>
    let t := sendTry ctx st1 (.aborted delivered)
    let st3 := handleStopGeneration t.st
    let c := sendCatch ctx st3 t.tend
    let f := sendFinallyStep parse ctx true c.1 t.acc t.tend
    some (f.1, evs1 ++ t.evs ++ c.2 ++ f.2)
  | _ => none

/-! ## The second copy of `handleSendMessage` (App.tsx lines 1805-2085) -/

/-- The synchronous prefix of the second copy: same input/loading guard,
requires an active chat, rejects text-to-image sends with attachments and
image-edit sends without attachments, creates the interpreter project
before appending, then appends the turn (retitling the chat on its first
user message). -/
def handleSendMessageSecondPhase1 (cfg : SendCfg) (st : AppState)
    (prompt : String) (attachments : List Attachment) : Phase1Out :=
  if (jsTrim prompt = "" ∧ attachments = []) ∨ st.isLoading = true then .rejected
  else
    match st.activeChatId with
    | none => .rejected
    | some currentChatId =>
      let isInterpreterRequest := cfg.isCodeInterpreterToggled
      let isImageRequest := cfg.isImageToolActive
      let isVideoRequest := cfg.isVideoToolActive
      if isImageRequest = true ∧ cfg.isTextToImageModel = true ∧ attachments ≠ []
      then .rejected
      else if isImageRequest = true ∧ cfg.isImageEditModel = true
          ∧ attachments = [] then .rejected
      else
        match st.chatHistory.find? (fun c => c.id = currentChatId) with
        | none => .crashed { st with isLoading := true } [.setLoading true, .crash]
        | some currentChat0 =>
          let created : Option Project :=
            if isInterpreterRequest = true ∧ currentChat0.project.isNone = true then
              some (createNewProject
                ("Project for: " ++ String.mk (prompt.data.take 30) ++ "...")
                cfg.now)
            else none
          let currentChat :=
            match created with
            | some p => { currentChat0 with project := some p }
            | none => currentChat0
          let histA :=
            match created with
            | some _ => updateChat st.chatHistory currentChatId (fun _ => currentChat)
            | none => st.chatHistory
          let projEvs : List Ev :=
            match created with
            | some _ => [.projectCreated currentChatId]
            | none => []
          let uiUserMessage : ChatMessage :=
            { id := "msg-user-" ++ toString cfg.now, role := .user,
              content := prompt, attachments := some attachments }
          let placeholder : ChatMessage :=
            { id := "msg-model-" ++ toString cfg.now, role := .model,
              content := if isVideoRequest then videoPlaceholderText else "",
              reasoning := some "",
              isThinking := some ((cfg.isThinkingModel
                  && (cfg.isProModel || cfg.useThinking))
                || isImageRequest || isVideoRequest),
              projectFilesUpdate := some isInterpreterRequest }
          let newTitle :=
            if currentChat.messages.length = 0 then
              String.mk (prompt.data.take 40)
                ++ (if prompt.data.length > 40 then "..." else "")
            else currentChat.title
          let hist1 := updateChat histA currentChatId
            (fun c => { c with title := newTitle,
                               messages := c.messages ++ [uiUserMessage, placeholder] })
          let ctx : SendCtx :=
            { cfg := cfg, isInterpreterRequest := isInterpreterRequest,
              isImageRequest := isImageRequest, isVideoRequest := isVideoRequest,
              currentChatId := currentChatId }
          .proceed ctx
            { chatHistory := hist1, activeChatId := st.activeChatId,
              isLoading := true }
            ([.setLoading true] ++ projEvs ++ [.turnAppended currentChatId])

/-- The second copy of `handleSendMessage` as a whole: same try/catch, and
a finally block that only overwrites the accumulated text with the last
response text for image/video requests. -/
def handleSendMessageSecond (parse : String → Except Unit JsonValue)
    (cfg : SendCfg) (st : AppState) (prompt : String)
    (attachments : List Attachment) (outcome : AdapterOutcome) :
    AppState × List Ev :=
  match handleSendMessageSecondPhase1 cfg st prompt attachments with
  | .rejected => (st, [])
  | .crashed st1 evs => (st1, evs)
  | .proceed ctx st1 evs1 =>
    let t := sendTry ctx st1 outcome
    let c := sendCatch ctx t.st t.tend
    let f := sendFinallyStep parse ctx false c.1 t.acc t.tend
    (f.1, evs1 ++ t.evs ++ c.2 ++ f.2)

theorem objGet_objSet_self {m : FSMap} {k : String} {v : FileSystemNode} :
    objGet (objSet m k v) k = some v := by
  induction m with
  | nil => simp [objSet, objGet]
  | cons e rest ih =>
    by_cases h : e.1 = k
    · simp [objSet, h, objGet]
    · simpa [objSet, h, objGet] using ih

theorem objGet_objSet_ne {m : FSMap} {k q : String} {v : FileSystemNode}
    (hqk : q ≠ k) : objGet (objSet m k v) q = objGet m q := by
  induction m with
  | nil => simp [objSet, objGet, Ne.symm hqk]
  | cons e rest ih =>
    by_cases h : e.1 = k
    · subst h
      simp [objSet, objGet, Ne.symm hqk]
    · by_cases hq : e.1 = q
      · simp [objSet, h, objGet, hq, hqk]
      · simpa [objSet, h, objGet, hq] using ih

/-- Writing back the very node that is already stored at a key leaves the
map unchanged. -/
theorem objSet_self {m : FSMap} {k : String} {v : FileSystemNode}
    (h : objGet m k = some v) : objSet m k v = m := by
  induction m with
  | nil => simp [objGet] at h
  | cons e rest ih =>
    by_cases he : e.1 = k
    · simp only [objGet, he, if_pos] at h
      obtain rfl : e.2 = v := by simpa using h
      simp only [objSet, if_pos he]
      rw [← he]
    · simp only [objGet, he, if_neg, not_false_iff] at h
      simp [objSet, he, ih h]

/-- Failure of the walk leaves the tree untouched: whenever `pathFails` holds
of the input tree, the walk returns `false` and the returned tree is exactly
the input tree. -/
theorem updateParts_fail :
    ∀ (parts : List String) (nodes : FSMap) (content : String),
      pathFails nodes parts = true →
      updateParts content nodes parts = (false, nodes) := by
  intro parts
  induction parts with
  | nil => intro nodes content h; simp [pathFails] at h
  | cons part rest ih =>
    intro nodes content h
    cases rest with
    | nil =>
      simp only [pathFails] at h
      match hg : objGet nodes part with
      | none => rw [hg] at h; simp at h
      | some (.mk nm cont none) => rw [hg] at h; simp at h
      | some (.mk nm cont (some ch)) => simp [updateParts, hg]
    | cons r2 rs =>
      simp only [pathFails] at h
      match hg : objGet nodes part with
      | none => rw [hg] at h; simp at h
      | some (.mk nm cont none) => simp [updateParts, hg]
      | some (.mk nm cont (some ch)) =>
        rw [hg] at h
        simp only at h
        have hrec := ih ch content h
        simp only [updateParts, hg, hrec]
        rw [objSet_self hg]

/-- A successful walk changes the tree only along the walked path. -/
theorem updateParts_success_onlyPath :
    ∀ (parts : List String) (nodes new : FSMap) (content : String),
      parts ≠ [] →
      updateParts content nodes parts = (true, new) →
      OnlyPath content nodes new parts := by
  intro parts
  induction parts with
  | nil => intro _ _ _ hne _; exact absurd rfl hne
  | cons part rest ih =>
    intro nodes new content _ h
    cases rest with
    | nil =>
      match hg : objGet nodes part with
      | none =>
        simp only [updateParts, hg] at h
        obtain ⟨-, rfl⟩ : true = true ∧
            objSet nodes part (.mk part (some content) none) = new := by
          constructor
          · rfl
          · exact congrArg Prod.snd h
        exact .single_new _ _ _ hg (fun q hq => objGet_objSet_ne hq)
          objGet_objSet_self
      | some (.mk nm cont none) =>
        simp only [updateParts, hg] at h
        obtain rfl : objSet nodes part (.mk nm (some content) none) = new :=
          congrArg Prod.snd h
        exact .single_old _ _ _ nm cont hg (fun q hq => objGet_objSet_ne hq)
          objGet_objSet_self
      | some (.mk nm cont (some ch)) =>
        simp only [updateParts, hg] at h
        exact absurd (congrArg Prod.fst h) (by simp)
    | cons r2 rs =>
      match hg : objGet nodes part with
      | none =>
        simp only [updateParts, hg] at h
        have hfst : (updateParts content [] (r2 :: rs)).1 = true :=
          congrArg Prod.fst h
        have hsnd : objSet nodes part
            (.mk part none (some (updateParts content [] (r2 :: rs)).2)) = new :=
          congrArg Prod.snd h
        subst hsnd
        exact .cons_new _ _ _ _ _ hg (fun q hq => objGet_objSet_ne hq)
          objGet_objSet_self
          (ih [] _ content (by simp) (Prod.ext hfst rfl))
      | some (.mk nm cont (some ch)) =>
        simp only [updateParts, hg] at h
        have hfst : (updateParts content ch (r2 :: rs)).1 = true :=
          congrArg Prod.fst h
        have hsnd : objSet nodes part
            (.mk nm cont (some (updateParts content ch (r2 :: rs)).2)) = new :=
          congrArg Prod.snd h
        subst hsnd
        exact .cons_old _ _ _ nm cont _ ch _ hg
          (fun q hq => objGet_objSet_ne hq) objGet_objSet_self
          (ih ch _ content (by simp) (Prod.ext hfst rfl))
      | some (.mk nm cont none) =>
        simp only [updateParts, hg] at h
        exact absurd (congrArg Prod.fst h) (by simp)

theorem getLast?_snoc {α : Type} (xs : List α) (a : α) :
    (xs ++ [a]).getLast? = some a := by
  induction xs with
  | nil => rfl
  | cons x rest ih =>
    cases rest with
    | nil => rfl
    | cons y ys => simp [List.getLast?] at ih ⊢

/-- C4: for every file tree, path and content, when some intermediate path
segment resolves to an existing node without a children mapping, or the
final segment resolves to an existing directory node, `findAndUpdateFile`
returns `false` (without throwing: it is a total function) and the returned
tree is exactly the input tree. -/
theorem findAndUpdateFile_fail_unchanged (nodes : FSMap) (path content : String)
    (h : pathFails nodes (splitPath path) = true) :
    findAndUpdateFile nodes path content = (false, nodes) :=
  updateParts_fail _ nodes content h

theorem findAndUpdateFile_fail_unchanged_witness :
    pathFails [("a", FileSystemNode.mk "a" (some "x") none)] (splitPath "a/b")
        = true
      ∧ findAndUpdateFile [("a", FileSystemNode.mk "a" (some "x") none)] "a/b"
          "hello"
        = (false, [("a", FileSystemNode.mk "a" (some "x") none)]) :=
  ⟨by decide, findAndUpdateFile_fail_unchanged _ _ _ (by decide)⟩

/-- C10: a successful `findAndUpdateFile` changes the tree only along the
given path: the final segment carries a file node with the given content,
previously absent intermediate segments become fresh directory nodes, and
every sibling at every level keeps the exact node it had before. -/
theorem findAndUpdateFile_success_frame (nodes new : FSMap)
    (path content : String) (hne : splitPath path ≠ [])
    (h : findAndUpdateFile nodes path content = (true, new)) :
    OnlyPath content nodes new (splitPath path) :=
  updateParts_success_onlyPath _ nodes new content hne h

theorem findAndUpdateFile_success_frame_witness :
    OnlyPath "z"
      [("a", FileSystemNode.mk "a" none
          (some [("x", FileSystemNode.mk "x" (some "1") none)]))]
      [("a", FileSystemNode.mk "a" none
          (some [("x", FileSystemNode.mk "x" (some "1") none),
                 ("b", FileSystemNode.mk "b" (some "z") none)]))]
      (splitPath "a/b") :=
  findAndUpdateFile_success_frame _ _ "a/b" "z" (by decide) rfl

theorem toggle_step_invariant : ∀ (a b c d : Bool) (op : ToggleOp),
    activeToggleCount ⟨a, b, c, d⟩ ≤ 1 →
    activeToggleCount (handleToggle ⟨a, b, c, d⟩ op) ≤ 1 := by
  intro a b c d op
  cases op <;> revert a b c d <;> decide

theorem toggle_fold_invariant : ∀ (ops : List ToggleOp) (s : ToggleState),
    activeToggleCount s ≤ 1 →
    activeToggleCount (ops.foldl handleToggle s) ≤ 1 := by
  intro ops
  induction ops with
  | nil => intro s h; exact h
  | cons op rest ih =>
    intro s h
    obtain ⟨a, b, c, d⟩ := s
    exact ih _ (toggle_step_invariant a b c d op h)

/-- C6: starting from the all-off state, after any finite sequence of
clicks on the four tool toggles at most one of the four flags is on:
turning one on forces the other three off. -/
theorem toggles_mutually_exclusive (ops : List ToggleOp) :
    activeToggleCount (runToggles ops) ≤ 1 :=
  toggle_fold_invariant ops ⟨false, false, false, false⟩ (by decide)

/-- C8: a send while the loading flag is on, or with a prompt that trims to
empty and no attachments, is a complete no-op of the first copy of
`handleSendMessage`: the state is returned unchanged and no event (no
session write, no loading-flag write, no adapter call) is produced. -/
theorem send_noop_when_loading_or_empty (parse : String → Except Unit JsonValue)
    (cfg : SendCfg) (st : AppState) (prompt : String)
    (attachments : List Attachment) (outcome : AdapterOutcome)
    (h : (jsTrim prompt = "" ∧ attachments = []) ∨ st.isLoading = true) :
    handleSendMessage parse cfg st prompt attachments outcome = (st, []) := by
  unfold handleSendMessage handleSendMessagePhase1
  rw [if_pos h]

theorem send_noop_when_loading_or_empty_witness :
    handleSendMessage (fun _ => Except.error ())
      ⟨false, false, false, false, false, false, false, false, false, false, 0⟩
      ⟨[], none, true⟩ "hello" [] (.success []) = (⟨[], none, true⟩, []) :=
  send_noop_when_loading_or_empty _ _ _ _ _ _ (Or.inr rfl)

/-- C9: plain-CHAT finalization. When the accumulated text decomposes as
`pre ++ "<thinking>" ++ mid ++ "</thinking>" ++ post` with the opening tag
occurring first at the split point and the closing tag occurring first at
the end of `mid`, the finalized fields are `reasoning = trim mid` and
`content = trim (pre ++ post)` (the matched block is stripped and JS
`.trim()` is applied); a text without such a block keeps its content
unchanged. -/
theorem chat_thinking_extraction (pre mid post : List Char)
    (h1 : firstOccur thinkOpenTag
        (pre ++ (thinkOpenTag ++ (mid ++ (thinkCloseTag ++ post))))
      = some pre.length)
    (h2 : firstOccur thinkCloseTag (mid ++ (thinkCloseTag ++ post))
      = some mid.length) :
    (∀ msg : ChatMessage,
        chatFinalFields
            (String.mk (pre ++ (thinkOpenTag ++ (mid ++ (thinkCloseTag ++ post)))))
            msg
          = { msg with reasoning := some (jsTrim (String.mk mid)),
                       content := jsTrim (String.mk (pre ++ post)) })
    ∧ (∀ (t : String) (msg : ChatMessage),
        firstOccur thinkOpenTag t.data = none →
        chatFinalFields t msg = { msg with content := t })
    ∧ (∀ (t : String) (i : Nat) (msg : ChatMessage),
        firstOccur thinkOpenTag t.data = some i →
        firstOccur thinkCloseTag (t.data.drop (i + thinkOpenTag.length)) = none →
        chatFinalFields t msg = { msg with content := t }) := by
  refine ⟨?_, ?_, ?_⟩
  · intro msg
    have hdrop : (pre ++ (thinkOpenTag ++ (mid ++ (thinkCloseTag ++ post)))).drop
        (pre.length + thinkOpenTag.length) = mid ++ (thinkCloseTag ++ post) := by
      rw [← List.append_assoc, ← List.length_append]
      exact List.drop_left _ _
    have htake : (mid ++ (thinkCloseTag ++ post)).take mid.length = mid :=
      List.take_left _ _
    have htake2 : (pre ++ (thinkOpenTag ++ (mid ++ (thinkCloseTag ++ post)))).take
        pre.length = pre := List.take_left _ _
    have hdrop2 : (mid ++ (thinkCloseTag ++ post)).drop
        (mid.length + thinkCloseTag.length) = post := by
      rw [← List.append_assoc, ← List.length_append]
      exact List.drop_left _ _
    simp only [chatFinalFields, extractThinking, String.data, h1, hdrop, h2,
      htake, htake2, hdrop2]
  · intro t msg h
    simp only [chatFinalFields, extractThinking, h]
  · intro t i msg h ha
    simp only [chatFinalFields, extractThinking, h, ha]

theorem chat_thinking_extraction_witness :
    chatFinalFields "<thinking>reasoning here</thinking>visible answer"
        { id := "m", role := Role.model, content := "" }
      = { id := "m", role := Role.model, content := "visible answer",
          reasoning := some "reasoning here" } :=
  (chat_thinking_extraction "".data "reasoning here".data "visible answer".data
    (by decide) (by decide)).1 { id := "m", role := Role.model, content := "" }

theorem attachGroundingChunks_content (g : List GroundingChunk)
    (m : ChatMessage) : (attachGroundingChunks g m).content = m.content := by
  unfold attachGroundingChunks
  split <;> rfl

theorem attachGroundingChunks_project (g : List GroundingChunk)
    (m : ChatMessage) : (attachGroundingChunks g m).project = m.project := by
  unfold attachGroundingChunks
  split <;> rfl

/-- C5: PROJECT-mode finalization of a payload that parses as JSON but
misses one of the three required fields replaces the trailing MODEL
message content with the fixed not-in-the-expected-format prefix followed
by the raw response text, and leaves the session project unchanged; the
finalizer is a total function, so no exception propagates. -/
theorem project_malformed_fallback (parse : String → Except Unit JsonValue)
    (ctx : SendCtx) (text : String) (finalParts : List RespPart)
    (grounding : List GroundingChunk) (prev : ChatSession) (proj : Project)
    (lastMsg : ChatMessage) (j : JsonValue)
    (himg : ctx.isImageRequest = false) (hvid : ctx.isVideoRequest = false)
    (hint : ctx.isInterpreterRequest = true)
    (hproj : prev.project = some proj)
    (hlast : prev.messages.getLast? = some lastMsg)
    (hrole : lastMsg.role = Role.model)
    (hparse : parse (cleanJson text) = .ok j)
    (hmiss : getField j "projectName" = none ∨ getField j "explanation" = none
      ∨ getField j "files" = none) :
    (∃ m, (finalUpdater parse ctx text finalParts grounding prev).messages.getLast?
        = some m ∧ m.content = notFormatFallback text)
    ∧ (finalUpdater parse ctx text finalParts grounding prev).project
        = prev.project := by
  have hcond : (truthyOpt (getField j "files")
      && truthyOpt (getField j "explanation")
      && truthyOpt (getField j "projectName")) = false := by
    rcases hmiss with h | h | h <;> simp [h, truthyOpt]
  have hbranch : finalUpdater parse ctx text finalParts grounding prev
      = { prev with messages := prev.messages.dropLast
            ++ [{ attachGroundingChunks grounding
                    { lastMsg with content := notFormatFallback text }
                  with isThinking := some false }] } := by
    unfold finalUpdater interpreterFinalFields
    rw [hlast]
    simp [hrole, himg, hvid, hint, hproj, hparse, hcond]
  refine ⟨⟨{ attachGroundingChunks grounding
              { lastMsg with content := notFormatFallback text }
            with isThinking := some false }, ?_, ?_⟩, ?_⟩
  · rw [hbranch]
    exact getLast?_snoc _ _
  · calc ({ attachGroundingChunks grounding
              { lastMsg with content := notFormatFallback text }
            with isThinking := some false } : ChatMessage).content
        = (attachGroundingChunks grounding
            { lastMsg with content := notFormatFallback text }).content := rfl
      _ = ({ lastMsg with content := notFormatFallback text } :
            ChatMessage).content := attachGroundingChunks_content _ _
      _ = notFormatFallback text := rfl
  · rw [hbranch]

theorem project_malformed_fallback_witness :
    (∃ m, (finalUpdater (fun _ => Except.ok (JsonValue.obj []))
        ⟨⟨true, false, false, false, false, false, false, false, false, false, 1⟩,
          true, false, false, "1"⟩
        "oops" [] []
        ⟨"1", "t", [⟨"m1", Role.model, "", none, none, none, none, none, none⟩],
          some ⟨"p1", "proj", "d", []⟩⟩).messages.getLast?
      = some m ∧ m.content = notFormatFallback "oops")
    ∧ (finalUpdater (fun _ => Except.ok (JsonValue.obj []))
        ⟨⟨true, false, false, false, false, false, false, false, false, false, 1⟩,
          true, false, false, "1"⟩
        "oops" [] []
        ⟨"1", "t", [⟨"m1", Role.model, "", none, none, none, none, none, none⟩],
          some ⟨"p1", "proj", "d", []⟩⟩).project
      = (⟨"1", "t", [⟨"m1", Role.model, "", none, none, none, none, none, none⟩],
          some ⟨"p1", "proj", "d", []⟩⟩ : ChatSession).project :=
  project_malformed_fallback _ _ "oops" [] [] _ ⟨"p1", "proj", "d", []⟩
    ⟨"m1", Role.model, "", none, none, none, none, none, none⟩ (JsonValue.obj [])
    rfl rfl rfl rfl rfl rfl rfl (Or.inl rfl)

theorem getLast?_isSome_of_ne_nil {α : Type} :
    ∀ (l : List α), l ≠ [] → ∃ v, l.getLast? = some v
  | [a], _ => ⟨a, rfl⟩
  | _ :: b :: t, _ => getLast?_isSome_of_ne_nil (b :: t) (by simp)

theorem mem_firstSeenKeys (l : List GroundingChunk) (k : UriVal) :
    k ∈ firstSeenKeys l ↔ ∃ c ∈ l, chunkKey c = k := by
  induction l with
  | nil => simp [firstSeenKeys]
  | cons c cs ih =>
    simp only [firstSeenKeys]
    constructor
    · intro h
      rcases List.mem_cons.mp h with rfl | hmem
      · exact ⟨c, List.mem_cons_self _ _, rfl⟩
      · obtain ⟨c', hc', hck⟩ := ih.mp (List.mem_filter.mp hmem).1
        exact ⟨c', List.mem_cons_of_mem _ hc', hck⟩
    · rintro ⟨c', hc', hck⟩
      rcases List.mem_cons.mp hc' with rfl | hmem
      · subst hck
        exact List.mem_cons_self _ _
      · by_cases hkc : k = chunkKey c
        · subst hkc
          exact List.mem_cons_self _ _
        · refine List.mem_cons_of_mem _
            (List.mem_filter.mpr ⟨ih.mpr ⟨c', hmem, hck⟩, ?_⟩)
          simpa using hkc

theorem firstSeenKeys_append (l : List GroundingChunk) (c : GroundingChunk) :
    firstSeenKeys (l ++ [c])
      = if chunkKey c ∈ firstSeenKeys l then firstSeenKeys l
        else firstSeenKeys l ++ [chunkKey c] := by
  induction l with
  | nil => simp [firstSeenKeys]
  | cons d ds ih =>
    have hcons : firstSeenKeys ((d :: ds) ++ [c])
        = chunkKey d ::
            (firstSeenKeys (ds ++ [c])).filter (fun k => k ≠ chunkKey d) := by
      rw [List.cons_append]
      rfl
    have hcons2 : firstSeenKeys (d :: ds)
        = chunkKey d ::
            (firstSeenKeys ds).filter (fun k => k ≠ chunkKey d) := rfl
    rw [hcons, hcons2, ih]
    by_cases hin : chunkKey c ∈ firstSeenKeys ds
    · rw [if_pos hin]
      have hmem : chunkKey c ∈ chunkKey d ::
          (firstSeenKeys ds).filter (fun k => k ≠ chunkKey d) := by
        by_cases hdc : chunkKey c = chunkKey d
        · rw [hdc]; exact List.mem_cons_self _ _
        · exact List.mem_cons_of_mem _
            (List.mem_filter.mpr ⟨hin, by simpa using hdc⟩)
      rw [if_pos hmem]
    · rw [if_neg hin, List.filter_append]
      by_cases hdc : chunkKey c = chunkKey d
      · have hmem : chunkKey c ∈ chunkKey d ::
            (firstSeenKeys ds).filter (fun k => k ≠ chunkKey d) := by
          rw [hdc]; exact List.mem_cons_self _ _
        rw [if_pos hmem]
        simp [hdc]
      · have hnmem : chunkKey c ∉ chunkKey d ::
            (firstSeenKeys ds).filter (fun k => k ≠ chunkKey d) := by
          intro h
          rcases List.mem_cons.mp h with h' | h'
          · exact hdc h'
          · exact hin (List.mem_filter.mp h').1
        rw [if_neg hnmem]
        simp [hdc]

theorem lastWithKey_append (l : List GroundingChunk) (c : GroundingChunk)
    (k : UriVal) :
    lastWithKey (l ++ [c]) k
      = if chunkKey c = k then some c else lastWithKey l k := by
  unfold lastWithKey
  rw [List.filter_append]
  by_cases h : chunkKey c = k
  · rw [if_pos h]
    simp only [List.filter, h, decide_true_eq_true]
    exact getLast?_snoc _ _
  · rw [if_neg h]
    simp [h]

theorem lastWithKey_isSome_of_mem {l : List GroundingChunk} {k : UriVal}
    (h : k ∈ firstSeenKeys l) : ∃ v, lastWithKey l k = some v := by
  obtain ⟨c, hc, hk⟩ := (mem_firstSeenKeys l k).mp h
  have hmem : c ∈ l.filter (fun c => chunkKey c = k) :=
    List.mem_filter.mpr ⟨hc, by simpa using hk⟩
  exact getLast?_isSome_of_ne_nil _ (List.ne_nil_of_mem hmem)

theorem buildChunkMap_canonical (l : List GroundingChunk) :
    buildChunkMap l = (firstSeenKeys l).filterMap
      (fun k => (lastWithKey l k).map (fun c => (k, c))) := by
  induction l using List.reverseRecOn with
  | nil => rfl
  | append_singleton l c ih =>
    have hstep : buildChunkMap (l ++ [c])
        = mapSet (buildChunkMap l) (chunkKey c) c := by
      simp [buildChunkMap, List.foldl_append]
    have hany : (((firstSeenKeys l).filterMap
        (fun k => (lastWithKey l k).map (fun c' => (k, c')))).any
        (fun e => e.1 = chunkKey c) = true) ↔ chunkKey c ∈ firstSeenKeys l := by
      rw [List.any_eq_true]
      constructor
      · rintro ⟨e, he, hpe⟩
        obtain ⟨k, hk, hf⟩ := List.mem_filterMap.mp he
        obtain ⟨v, -, hfv⟩ := Option.map_eq_some'.mp hf
        subst hfv
        simp only [decide_eq_true_eq] at hpe
        exact hpe ▸ hk
      · intro hmem
        obtain ⟨v, hv⟩ := lastWithKey_isSome_of_mem hmem
        refine ⟨(chunkKey c, v), List.mem_filterMap.mpr ⟨chunkKey c, hmem, ?_⟩, by simp⟩
        rw [hv]
        rfl
    rw [hstep, ih, firstSeenKeys_append]
    by_cases hin : chunkKey c ∈ firstSeenKeys l
    · rw [if_pos hin]
      unfold mapSet
      rw [if_pos (hany.mpr hin), List.map_filterMap]
      apply List.filterMap_congr
      intro k hk
      rw [lastWithKey_append]
      by_cases hkc : chunkKey c = k
      · subst hkc
        obtain ⟨v, hv⟩ := lastWithKey_isSome_of_mem hk
        rw [if_pos rfl, hv]
        simp
      · rw [if_neg hkc]
        cases hx : lastWithKey l k <;> simp [hx, Ne.symm hkc]
    · rw [if_neg hin]
      unfold mapSet
      rw [if_neg (fun h => hin (hany.mp h)), List.filterMap_append]
      congr 1
      · apply List.filterMap_congr
        intro k hk
        rw [lastWithKey_append]
        have hkc : chunkKey c ≠ k := fun h => hin (h ▸ hk)
        rw [if_neg hkc]
      · simp [List.filterMap, lastWithKey_append]

theorem uniqueChunks_eq_spec (l : List GroundingChunk) :
    uniqueChunks l = uniqueChunksSpec l := by
  unfold uniqueChunks uniqueChunksSpec
  rw [buildChunkMap_canonical, List.map_filterMap]
  congr 1
  apply List.filterMap_congr
  intro k _
  cases hx : lastWithKey l k <;> simp [hx]

/-- C1 counterexample: the code deduplicates with the LAST occurrence of a
URL winning (JS `Map.set` overwrites the value at an existing key), and it
attaches the `groundingChunks` field whenever the accumulated list is
non-empty, even when the deduplicated result is empty. With two distinct
citations sharing URL `x`, the survivor is the second one, not the first;
with a single citation whose URL is null, an empty list is attached. -/
theorem citation_dedup_counterexample :
    uniqueChunks [⟨some ⟨UriVal.str "x", "a"⟩⟩, ⟨some ⟨UriVal.str "x", "b"⟩⟩]
        = [⟨some ⟨UriVal.str "x", "b"⟩⟩]
    ∧ (⟨some ⟨UriVal.str "x", "b"⟩⟩ : GroundingChunk)
        ≠ ⟨some ⟨UriVal.str "x", "a"⟩⟩
    ∧ (attachGroundingChunks [⟨some ⟨UriVal.null, "t"⟩⟩]
        { id := "m", role := Role.model, content := "" }).groundingChunks
        = some [] := by
  refine ⟨by decide, by decide, ?_⟩
  rfl

/-- C1 amended: the finalizer attaches the `groundingChunks` field exactly
when the accumulated citation list is non-empty, and the attached value is
the accumulated sequence deduplicated by source URL in first-seen order
with, for each URL, the entry of its last occurrence, entries lacking a
usable URL dropped. -/
theorem citation_dedup_amended (l : List GroundingChunk) (msg : ChatMessage) :
    attachGroundingChunks l msg =
      if l.isEmpty then msg
      else { msg with groundingChunks := some (uniqueChunksSpec l) } := by
  unfold attachGroundingChunks
  cases l with
  | nil => simp
  | cons c cs => simp [uniqueChunks_eq_spec]

theorem consumeChunks_no_terminal_evs (ctx : SendCtx) :
    ∀ (cs : List Chunk) (i : Nat) (acc : Accum) (st : AppState),
      Ev.finalize ∉ (consumeChunks ctx i acc st cs).2.2
      ∧ Ev.setLoading false ∉ (consumeChunks ctx i acc st cs).2.2
      ∧ Ev.errorWrite ∉ (consumeChunks ctx i acc st cs).2.2 := by
  intro cs
  induction cs with
  | nil => intro i acc st; simp [consumeChunks]
  | cons ch rest ih =>
    intro i acc st
    by_cases hec : echoCond ctx = true <;>
      simp only [consumeChunks, hec] <;>
      simp [List.mem_cons, not_or] <;>
      exact ⟨(ih _ _ _).1, (ih _ _ _).2.1, (ih _ _ _).2.2⟩

theorem sendTry_no_terminal_evs (ctx : SendCtx) (st : AppState)
    (outcome : AdapterOutcome) :
    Ev.finalize ∉ (sendTry ctx st outcome).evs
    ∧ Ev.setLoading false ∉ (sendTry ctx st outcome).evs
    ∧ Ev.errorWrite ∉ (sendTry ctx st outcome).evs := by
  unfold sendTry
  by_cases h1 : (ctx.isImageRequest && ctx.cfg.isTextToImageModel) = true <;>
    by_cases h2 : ctx.isVideoRequest = true <;>
    cases outcome <;>
    simp [h1, h2, List.mem_cons, not_or] <;>
    exact ⟨(consumeChunks_no_terminal_evs ctx _ _ _ _).1,
           (consumeChunks_no_terminal_evs ctx _ _ _ _).2.1,
           (consumeChunks_no_terminal_evs ctx _ _ _ _).2.2⟩

theorem sendTry_tend_success (ctx : SendCtx) (st : AppState) (cs : List Chunk) :
    (sendTry ctx st (.success cs)).tend = .completed := by
  unfold sendTry
  by_cases h1 : (ctx.isImageRequest && ctx.cfg.isTextToImageModel) = true <;>
    by_cases h2 : ctx.isVideoRequest = true <;> simp [h1, h2]

theorem sendTry_tend_aborted (ctx : SendCtx) (st : AppState) (cs : List Chunk) :
    (sendTry ctx st (.aborted cs)).tend = .abortedE := by
  unfold sendTry
  by_cases h1 : (ctx.isImageRequest && ctx.cfg.isTextToImageModel) = true <;>
    by_cases h2 : ctx.isVideoRequest = true <;> simp [h1, h2]

theorem consumeChunks_isLoading (ctx : SendCtx) :
    ∀ (cs : List Chunk) (i : Nat) (acc : Accum) (st : AppState),
      (consumeChunks ctx i acc st cs).2.1.isLoading = st.isLoading := by
  intro cs
  induction cs with
  | nil => intro i acc st; rfl
  | cons ch rest ih =>
    intro i acc st
    by_cases hec : echoCond ctx = true <;>
      simp only [consumeChunks, hec] <;> simp [ih]

theorem sendTry_isLoading (ctx : SendCtx) (st : AppState)
    (outcome : AdapterOutcome) :
    (sendTry ctx st outcome).st.isLoading = st.isLoading := by
  unfold sendTry
  by_cases h1 : (ctx.isImageRequest && ctx.cfg.isTextToImageModel) = true <;>
    by_cases h2 : ctx.isVideoRequest = true <;>
    cases outcome <;> simp [h1, h2, consumeChunks_isLoading]

theorem phase1_proceed_facts (cfg : SendCfg) (st : AppState) (prompt : String)
    (atts : List Attachment) (ctx : SendCtx) (st1 : AppState) (evs1 : List Ev)
    (h : handleSendMessagePhase1 cfg st prompt atts = .proceed ctx st1 evs1) :
    st1.isLoading = true ∧ Ev.finalize ∉ evs1 ∧ Ev.setLoading false ∉ evs1
    ∧ Ev.errorWrite ∉ evs1 := by
  simp only [handleSendMessagePhase1] at h
  repeat' split at h
  all_goals try exact Phase1Out.noConfusion h
  all_goals
    simp only [Phase1Out.proceed.injEq] at h
  all_goals
    obtain ⟨h1, h2, h3⟩ := h
  all_goals
    subst h2
  all_goals
    subst h3
  all_goals
    exact ⟨rfl, by simp, by simp, by simp⟩

/-- C2 amended: on a successful (non-aborted, non-error) send the final
post-processing commit is the last event of the trace, strictly after every
streamed chunk observation (and after the single-shot response), and the
loading flag is cleared immediately BEFORE that commit — the first action
of the completion block — not after it. -/
theorem finalize_last_in_success_trace (parse : String → Except Unit JsonValue)
    (cfg : SendCfg) (st : AppState) (prompt : String) (atts : List Attachment)
    (chunks : List Chunk) (ctx : SendCtx) (st1 : AppState) (evs1 : List Ev)
    (h : handleSendMessagePhase1 cfg st prompt atts = .proceed ctx st1 evs1) :
    ∃ pre, (handleSendMessage parse cfg st prompt atts (.success chunks)).2
        = pre ++ [Ev.setLoading false, Ev.finalize]
      ∧ Ev.finalize ∉ pre ∧ Ev.setLoading false ∉ pre := by
  refine ⟨evs1 ++ (sendTry ctx st1 (.success chunks)).evs, ?_, ?_, ?_⟩
  · simp only [handleSendMessage, h]
    rw [sendTry_tend_success]
    simp [sendCatch, sendFinallyStep, List.append_assoc]
  · intro hmem
    rcases List.mem_append.mp hmem with h1 | h2
    · exact (phase1_proceed_facts _ _ _ _ _ _ _ h).2.1 h1
    · exact (sendTry_no_terminal_evs _ _ _).1 h2
  · intro hmem
    rcases List.mem_append.mp hmem with h1 | h2
    · exact (phase1_proceed_facts _ _ _ _ _ _ _ h).2.2.1 h1
    · exact (sendTry_no_terminal_evs _ _ _).2.1 h2

/-- C2 counterexample: a concrete successful one-chunk plain-chat send.
The trace shows the loading flag cleared (index 5) strictly BEFORE the
final commit (index 6), refuting that the commit happens strictly before
the flag is cleared; the commit does come strictly after the chunk. -/
theorem finalize_order_counterexample :
    (handleSendMessage (fun _ => Except.error ())
        ⟨false, false, false, false, false, false, false, false, false, false, 0⟩
        ⟨[], none, false⟩ "Hello" [] (.success [⟨"Hi", none, none⟩])).2
      = [Ev.setLoading true, Ev.sessionCreated "0", Ev.netCall .chatStream,
         Ev.chunk 0, Ev.echo 0, Ev.setLoading false, Ev.finalize]
    ∧ ¬ ((handleSendMessage (fun _ => Except.error ())
        ⟨false, false, false, false, false, false, false, false, false, false, 0⟩
        ⟨[], none, false⟩ "Hello" [] (.success [⟨"Hi", none, none⟩])).2.indexOf
          Ev.finalize
        < (handleSendMessage (fun _ => Except.error ())
        ⟨false, false, false, false, false, false, false, false, false, false, 0⟩
        ⟨[], none, false⟩ "Hello" [] (.success [⟨"Hi", none, none⟩])).2.indexOf
          (Ev.setLoading false)) := by
  refine ⟨by decide, by decide⟩

theorem finalize_last_in_success_trace_witness :
    ∃ pre, (handleSendMessage (fun _ => Except.error ())
        ⟨false, false, false, false, false, false, false, false, false, false, 0⟩
        ⟨[], none, false⟩ "Hello" [] (.success [⟨"Hi", none, none⟩])).2
        = pre ++ [Ev.setLoading false, Ev.finalize]
      ∧ Ev.finalize ∉ pre ∧ Ev.setLoading false ∉ pre :=
  finalize_last_in_success_trace _ _ _ _ _ _ _ _ _ rfl

/-- C3 amended: in the second copy of `handleSendMessage`, a send with the
image tool active and either a text-to-image model plus attachments or an
image-edit model with zero attachments is rejected synchronously with no
state mutation and no adapter call; in the first copy only the
text-to-image-with-attachments rejection is enforced. -/
theorem image_validation_amended :
    (∀ (parse : String → Except Unit JsonValue) (cfg : SendCfg) (st : AppState)
        (prompt : String) (atts : List Attachment) (outcome : AdapterOutcome),
        cfg.isImageToolActive = true →
        ((cfg.isTextToImageModel = true ∧ atts ≠ []) ∨
         (cfg.isImageEditModel = true ∧ atts = [])) →
        handleSendMessageSecond parse cfg st prompt atts outcome = (st, []))
    ∧ (∀ (parse : String → Except Unit JsonValue) (cfg : SendCfg) (st : AppState)
        (prompt : String) (atts : List Attachment) (outcome : AdapterOutcome),
        cfg.isImageToolActive = true → cfg.isTextToImageModel = true →
        atts ≠ [] →
        handleSendMessage parse cfg st prompt atts outcome = (st, [])) := by
  constructor
  · intro parse cfg st prompt atts outcome himg hcond
    by_cases hg : (jsTrim prompt = "" ∧ atts = []) ∨ st.isLoading = true
    · simp [handleSendMessageSecond, handleSendMessageSecondPhase1, hg]
    · cases hact : st.activeChatId with
      | none => simp [handleSendMessageSecond, handleSendMessageSecondPhase1, hg, hact]
      | some cid =>
        by_cases h1 : cfg.isImageToolActive = true ∧ cfg.isTextToImageModel = true
            ∧ atts ≠ []
        · simp [handleSendMessageSecond, handleSendMessageSecondPhase1, hg, hact, h1]
        · have h2 : cfg.isImageToolActive = true ∧ cfg.isImageEditModel = true
              ∧ atts = [] := by
            rcases hcond with ⟨ht, hne⟩ | ⟨he, hemp⟩
            · exact absurd ⟨himg, ht, hne⟩ h1
            · exact ⟨himg, he, hemp⟩
          simp [handleSendMessageSecond, handleSendMessageSecondPhase1, hg, hact,
            h1, h2]
  · intro parse cfg st prompt atts outcome himg ht2i hne
    by_cases hg : (jsTrim prompt = "" ∧ atts = []) ∨ st.isLoading = true
    · simp [handleSendMessage, handleSendMessagePhase1, hg]
    · simp [handleSendMessage, handleSendMessagePhase1, hg, himg, ht2i, hne]

/-- C3 counterexample: in the first copy, a send with the image tool active,
an image-edit model selected and zero attachments is NOT rejected: the
session store is mutated (a session is created) and a chat-endpoint adapter
call is issued. -/
theorem image_validation_counterexample :
    Ev.netCall NetKind.chatStream ∈ (handleSendMessage (fun _ => Except.error ())
        ⟨false, false, true, false, false, true, false, false, false, false, 7⟩
        ⟨[], none, false⟩ "edit this" [] (.success [⟨"ok", none, none⟩])).2
    ∧ Ev.sessionCreated "7" ∈ (handleSendMessage (fun _ => Except.error ())
        ⟨false, false, true, false, false, true, false, false, false, false, 7⟩
        ⟨[], none, false⟩ "edit this" [] (.success [⟨"ok", none, none⟩])).2 := by
  refine ⟨by decide, by decide⟩

theorem image_validation_amended_witness :
    handleSendMessageSecond (fun _ => Except.error ())
        ⟨false, false, true, false, false, true, false, false, false, false, 7⟩
        ⟨[], some "1", false⟩ "edit this" [] (.success [])
      = (⟨[], some "1", false⟩, [])
    ∧ handleSendMessage (fun _ => Except.error ())
        ⟨false, false, true, false, true, false, false, false, false, false, 7⟩
        ⟨[], none, false⟩ "a cat" [⟨"f", "image/png", "d"⟩] (.success [])
      = (⟨[], none, false⟩, []) :=
  ⟨image_validation_amended.1 _ _ _ _ _ _ rfl (Or.inr ⟨rfl, rfl⟩),
   image_validation_amended.2 _ _ _ _ _ _ rfl rfl (by decide)⟩

theorem find?_map_preserving_id (hist : List ChatSession)
    (g : ChatSession → ChatSession) (hg : ∀ c, (g c).id = c.id) (cid : String) :
    (hist.map g).find? (fun c => c.id = cid)
      = (hist.find? (fun c => c.id = cid)).map g := by
  induction hist with
  | nil => rfl
  | cons c rest ih =>
    simp only [List.map_cons, List.find?]
    rw [hg c]
    by_cases hc : c.id = cid
    · simp [hc]
    · simp [hc, ih]

theorem setLastMessage_id (f : ChatMessage → ChatMessage) (s : ChatSession) :
    (setLastMessage f s).id = s.id := by
  unfold setLastMessage
  cases h : s.messages.getLast? with
  | none => simp [h]
  | some m =>
    simp only [h]
    split <;> rfl

theorem handleStopGeneration_find (st : AppState) (cid : String)
    (hact : st.activeChatId = some cid) (hload : st.isLoading = true)
    (chat : ChatSession)
    (hfind : st.chatHistory.find? (fun c => c.id = cid) = some chat)
    (m : ChatMessage)
    (hlast : chat.messages.getLast? = some m) (hrole : m.role = Role.model) :
    ((handleStopGeneration st).chatHistory.find? (fun c => c.id = cid)).bind
        (fun c => c.messages.getLast?)
      = some { m with content := "You stopped this response.",
                      isThinking := some false } := by
  have hchatid : chat.id = cid := by simpa using List.find?_some hfind
  unfold handleStopGeneration
  rw [find?_map_preserving_id _ _ ?hg cid, hfind]
  case hg =>
    intro c
    by_cases hc : st.activeChatId = some c.id <;>
      by_cases hl : st.isLoading = true <;> simp [hc, hl, setLastMessage_id]
  have hcond : st.activeChatId = some chat.id := by rw [hact, hchatid]
  simp only [Option.map_some', Option.some_bind, hcond, if_pos rfl, hload,
    if_true]
  unfold setLastMessage
  simp only [hlast]
  rw [if_pos hrole]
  exact getLast?_snoc _ _

/-- C7: if the abort token fires during the in-flight request (after any
prefix of delivered chunks; the adapter consumes no further chunks once the
signal is set), the composed run consisting of the send, the user stop
action and the AbortError unwinding produces no finalize event (the
Response Post-Processor is never invoked) and no error-message write (abort
is distinguished from failure and returns silently); the loading flag ends
cleared and the trailing MODEL message of the active chat carries the fixed
stopped-by-user notice. -/
theorem cancellation_skips_finalizer (parse : String → Except Unit JsonValue)
    (cfg : SendCfg) (st : AppState) (prompt : String) (atts : List Attachment)
    (delivered : List Chunk) (ctx : SendCtx) (st1 : AppState) (evs1 : List Ev)
    (h1 : handleSendMessagePhase1 cfg st prompt atts = .proceed ctx st1 evs1)
    (chat : ChatSession) (m : ChatMessage)
    (hact : (sendTry ctx st1 (.aborted delivered)).st.activeChatId
      = some ctx.currentChatId)
    (hfind : (sendTry ctx st1 (.aborted delivered)).st.chatHistory.find?
        (fun c => c.id = ctx.currentChatId) = some chat)
    (hlast : chat.messages.getLast? = some m) (hrole : m.role = Role.model) :
    ∃ stF evs, abortedRun parse cfg st prompt atts delivered = some (stF, evs)
      ∧ Ev.finalize ∉ evs ∧ Ev.errorWrite ∉ evs
      ∧ stF.isLoading = false
      ∧ (stF.chatHistory.find? (fun c => c.id = ctx.currentChatId)).bind
          (fun c => c.messages.getLast?)
        = some { m with content := "You stopped this response.",
                        isThinking := some false } := by
  have htend : (sendTry ctx st1 (.aborted delivered)).tend = .abortedE :=
    sendTry_tend_aborted ctx st1 delivered
  have hload2 : (sendTry ctx st1 (.aborted delivered)).st.isLoading = true := by
    rw [sendTry_isLoading]
    exact (phase1_proceed_facts _ _ _ _ _ _ _ h1).1
  have hrun : abortedRun parse cfg st prompt atts delivered
      = some ({ handleStopGeneration (sendTry ctx st1 (.aborted delivered)).st
                  with isLoading := false },
              evs1 ++ (sendTry ctx st1 (.aborted delivered)).evs
                ++ [Ev.setLoading false]) := by
    simp only [abortedRun, h1, htend]
    simp [sendCatch, sendFinallyStep]
  refine ⟨_, _, hrun, ?_, ?_, rfl, ?_⟩
  · intro hmem
    rcases List.mem_append.mp hmem with hmem' | hmem'
    · rcases List.mem_append.mp hmem' with h' | h'
      · exact (phase1_proceed_facts _ _ _ _ _ _ _ h1).2.1 h'
      · exact (sendTry_no_terminal_evs _ _ _).1 h'
    · simp at hmem'
  · intro hmem
    rcases List.mem_append.mp hmem with hmem' | hmem'
    · rcases List.mem_append.mp hmem' with h' | h'
      · exact (phase1_proceed_facts _ _ _ _ _ _ _ h1).2.2.2 h'
      · exact (sendTry_no_terminal_evs _ _ _).2.2 h'
    · simp at hmem'
  · exact handleStopGeneration_find _ _ hact hload2 chat hfind m hlast hrole

theorem cancellation_skips_finalizer_witness :
    ∃ stF evs, abortedRun (fun _ => Except.error ())
        ⟨false, false, false, false, false, false, false, false, false, false, 0⟩
        ⟨[⟨"1", "t", [⟨"u", Role.user, "q", none, none, none, none, none, none⟩,
            ⟨"m", Role.model, "a", none, none, none, none, none, none⟩], none⟩],
          some "1", false⟩ "hi" [] []
      = some (stF, evs)
      ∧ Ev.finalize ∉ evs ∧ Ev.errorWrite ∉ evs
      ∧ stF.isLoading = false
      ∧ (stF.chatHistory.find? (fun c => c.id = "1")).bind
          (fun c => c.messages.getLast?)
        = some ⟨"msg-model-0", Role.model, "You stopped this response.", none,
            some "", some false, some false, none, none⟩ :=
  cancellation_skips_finalizer (fun _ => Except.error ())
    ⟨false, false, false, false, false, false, false, false, false, false, 0⟩
    ⟨[⟨"1", "t", [⟨"u", Role.user, "q", none, none, none, none, none, none⟩,
        ⟨"m", Role.model, "a", none, none, none, none, none, none⟩], none⟩],
      some "1", false⟩ "hi" [] [] _ _ _ rfl _ _ rfl rfl rfl rfl
